import Mathlib

/-!
Shallow embedding of the data-processing core of `V10.PY` ("九域真形图"):
the markdown parser (`parse_markdown`), the name normalizer
(`normalize_name`) and the hierarchical linker (`link_data`).

Modelling conventions:
* A Python `str` is modelled as `List Char`.  Input lines come from
  iterating a file, so a line never contains a newline character; the
  regex matchers below are faithful to `re.match` on such newline-free
  lines.
* Whitespace (`str.strip()`, regex `\s`) is modelled by the ASCII
  whitespace characters space, tab, newline, carriage return, vertical
  tab and form feed.
* `adcode` cells and geometry cells of the reference tables are opaque
  values of type parameters `A` (with decidable equality, used by the
  pandas `==` scoping filter) and `G`.
* A pandas `GeoDataFrame` is modelled as a list of typed rows plus
  booleans recording presence of the columns the code tests for
  (`pr_name`; `ct_name`/`pr_adcode`; `dt_name`/`ct_adcode`).
-/

/-- ASCII whitespace, modelling Python's `str.strip()` / regex `\s`. -/
def isWS (c : Char) : Bool :=
  c == ' ' || c == '\t' || c == '\n' || c == '\r' || c == Char.ofNat 11 || c == Char.ofNat 12

/-- Right-strip whitespace (the tail half of Python `str.strip()`). -/
def rstripWS (s : List Char) : List Char :=
  ((s.reverse).dropWhile isWS).reverse

/-- Python `str.strip()`: drop whitespace from both ends. -/
def pyStrip (s : List Char) : List Char :=
  rstripWS (s.dropWhile isWS)

/-- Python `str.strip('\n')`: drop newline characters from both ends
(applied to buffered raw lines in `parse_markdown`). -/
def stripNl (s : List Char) : List Char :=
  ((s.dropWhile (· == '\n')).reverse.dropWhile (· == '\n')).reverse

/-- Python `"\n".join(lines)`. -/
def joinNl : List (List Char) → List Char
  | [] => []
  | [x] => x
  | x :: y :: rest => x ++ '\n' :: joinNl (y :: rest)

/-- `pre.isPrefixOf s` by explicit character comparison. -/
def hasPre : List Char → List Char → Bool
  | [], _ => true
  | _ :: _, [] => false
  | a :: as, b :: bs => a == b && hasPre as bs

/-- Python `name.endswith(suffix)`. -/
def endsWith (s suf : List Char) : Bool :=
  hasPre suf.reverse s.reverse

/-- The fixed suffix list of `normalize_name`, in source order:
省, 市, 区, 县, 自治州, 自治县, 地区, 盟. -/
def suffixes_to_remove : List (List Char) :=
  ["省".data, "市".data, "区".data, "县".data, "自治州".data, "自治县".data, "地区".data, "盟".data]

/-- One iteration of the suffix loop of `normalize_name`:
`if name.endswith(suffix) and len(name) > len(suffix): name = name[:-len(suffix)]`. -/
def stripOneSuffix (name suf : List Char) : List Char :=
  if endsWith name suf && decide (suf.length < name.length) then
    name.take (name.length - suf.length)
  else
    name

/-- `normalize_name` of `V10.PY`: strip surrounding whitespace, then run the
suffix loop over `suffixes_to_remove` (the loop reassigns `name`, so each
list entry can strip once, in list order). -/
def normalize_name (name : List Char) : List Char :=
  suffixes_to_remove.foldl stripOneSuffix (pyStrip name)

/-!  Regex matchers.

The five heading patterns of `V10.PY` (lines 41-45) are compiled here into
explicit matching functions on newline-free lines.  Greedy `\s+`/`\s*`
runs followed by a non-whitespace mandatory character are implemented by
maximal munch, which coincides with the backtracking semantics; the two
places where backtracking is observable are implemented explicitly:
* `titleTail` models `\s*(.+)$` — if everything after the greedy
  whitespace run is gone, the regex backtracks one whitespace character
  and captures it;
* the garbled 38th ordinal alternative `" ৩৮"` of `H2_MD_PATTERN`
  starts with a literal space, so it can only match when the greedy
  `\s+` backtracks by exactly one character, i.e. when the whitespace
  run has length at least two and its last character is a plain space.
-/

/-- Model of `\s*(.+)$` applied to the tail `t` of a line: the captured
group, or `none` when the pattern cannot match. -/
def titleTail (t : List Char) : Option (List Char) :=
  if (t.dropWhile isWS).isEmpty then
    match t.reverse with
    | [] => none
    | c :: _ => some [c]
  else
    some (t.dropWhile isWS)

/-- `[0-9]` of `H1_MD_PATTERN`. -/
def isDigit09 (c : Char) : Bool := '0' ≤ c && c ≤ '9'

/-- `H1_MD_PATTERN = ^#\s+第[0-9]+章\s*(.+)$`; returns the captured title. -/
def matchH1 (s : List Char) : Option (List Char) :=
  match s with
  | '#' :: rest =>
    if (rest.takeWhile isWS).isEmpty then none
    else
      match rest.dropWhile isWS with
      | '第' :: r2 =>
        if (r2.takeWhile isDigit09).isEmpty then none
        else
          match r2.dropWhile isDigit09 with
          | '章' :: r3 => titleTail r3
          | _ => none
      | _ => none
  | _ => none

/-- The 37 well-formed Chinese ordinal alternatives of `H2_MD_PATTERN`,
in source order. -/
def H2_ORDINALS_CN : List (List Char) :=
  ["一".data, "二".data, "三".data, "四".data, "五".data, "六".data, "七".data,
   "八".data, "九".data, "十".data, "十一".data, "十二".data, "十三".data,
   "十四".data, "十五".data, "十六".data, "十七".data, "十八".data, "十九".data,
   "二十".data, "二十一".data, "二十二".data, "二十三".data, "二十四".data,
   "二十五".data, "二十六".data, "二十七".data, "二十八".data, "二十九".data,
   "三十".data, "三十一".data, "三十二".data, "三十三".data, "三十四".data,
   "三十五".data, "三十六".data, "三十七".data]

/-- The full alternative list of `H2_MD_PATTERN`, including the garbled
38th entry `" ৩৮"` (a space followed by the Bengali digits three and
eight). -/
def H2_ORDINALS : List (List Char) :=
  H2_ORDINALS_CN ++ [" ৩৮".data]

/-- Try each Chinese ordinal alternative in order against `r`, requiring
the separator `、` directly after it; return the remaining tail. -/
def findOrd (r : List Char) : Option (List Char) :=
  H2_ORDINALS_CN.findSome? fun o =>
    if hasPre (o ++ ['、']) r then some (r.drop (o.length + 1)) else none

/-- `H2_MD_PATTERN = ^##\s+(?:一|…|三十七| ৩৮)、\s*(.+)$`; returns the
captured title. -/
def matchH2 (s : List Char) : Option (List Char) :=
  match s with
  | '#' :: '#' :: rest =>
    if (rest.takeWhile isWS).isEmpty then none
    else
      match findOrd (rest.dropWhile isWS) with
      | some tail => titleTail tail
      | none =>
        if 2 ≤ (rest.takeWhile isWS).length && (rest.takeWhile isWS).getLast? == some ' '
            && hasPre "৩৮、".data (rest.dropWhile isWS) then
          titleTail ((rest.dropWhile isWS).drop 3)
        else none
  | _ => none

/-- `H2_SPECIAL_ZERO_PATTERN = ^##\s+零、上位类说明$`. -/
def isH2Zero (s : List Char) : Bool :=
  match s with
  | '#' :: '#' :: rest =>
    !(rest.takeWhile isWS).isEmpty && rest.dropWhile isWS == "零、上位类说明".data
  | _ => false

/-- `H3_SPECIAL_ZERO_PATTERN = ^###\s+0\.上位类说明$`. -/
def isH3Zero (s : List Char) : Bool :=
  match s with
  | '#' :: '#' :: '#' :: rest =>
    !(rest.takeWhile isWS).isEmpty && rest.dropWhile isWS == "0.上位类说明".data
  | _ => false

/-- `[1-9]` of `H3_MD_PATTERN`. -/
def isDigit19 (c : Char) : Bool := '1' ≤ c && c ≤ '9'

/-- `H3_MD_PATTERN = ^###\s*([1-9]|1[0-9]|2[0-5])\.\s*(.+)$`; returns the
captured title (group 2, the only group the code uses). -/
def matchH3 (s : List Char) : Option (List Char) :=
  match s with
  | '#' :: '#' :: '#' :: rest =>
    match rest.dropWhile isWS with
    | c1 :: c2 :: r2 =>
      if c2 == '.' && isDigit19 c1 then titleTail r2
      else
        match r2 with
        | '.' :: t =>
          if (c1 == '1' && isDigit09 c2) || (c1 == '2' && '0' ≤ c2 && c2 ≤ '5') then
            titleTail t
          else none
        | _ => none
    | _ => none
  | _ => none

/-!  Data model.

`parse_markdown` builds dicts with keys `name, level, adcode,
text_general, text_detail, geometry, children` (plus `parent_name`,
`parent_adcode` for levels 2 and 3; level-3 dicts have no `children`
key).  They become three fixed-shape records.
-/

structure District (A G : Type) where
  name : List Char
  level : Nat
  parent_name : List Char
  parent_adcode : Option A
  adcode : Option A
  text_general : List Char
  text_detail : List Char
  geometry : Option G
deriving DecidableEq, Repr

structure City (A G : Type) where
  name : List Char
  level : Nat
  parent_name : List Char
  parent_adcode : Option A
  adcode : Option A
  text_general : List Char
  text_detail : List Char
  geometry : Option G
  children : List (District A G)
deriving DecidableEq, Repr

structure Prov (A G : Type) where
  name : List Char
  level : Nat
  adcode : Option A
  text_general : List Char
  text_detail : List Char
  geometry : Option G
  children : List (City A G)
deriving DecidableEq, Repr

/-- Which text field plain lines are currently appended to
(`active_field` of `parse_markdown`). -/
inductive AField | general | detail
deriving DecidableEq, Repr

/-- Which node is currently active (`active_entity`), by level.  In every
reachable parser state `current_province` is the last element of
`processed_data`, `current_city` the last child of `current_province` and
`current_district` the last child of `current_city`, so the active entity
is represented by its level. -/
inductive ALevel | prov | city | dist
deriving DecidableEq, Repr

/-- The explicit parser state of `parse_markdown`: the forest built so
far, whether `current_city` / `current_district` are set, the active
entity and field, and the pending text buffer. -/
structure PState (A G : Type) where
  provs : List (Prov A G)
  hasCity : Bool
  hasDist : Bool
  active : Option ALevel
  activeField : AField
  buffer : List (List Char)
deriving DecidableEq, Repr

/-- Replace the last element of a list by `f` of it (aliasing writes to
`current_province`/`current_city`/`current_district` become updates of the
last element). -/
def updLast {α : Type} (f : α → α) : List α → List α
  | [] => []
  | [a] => [f a]
  | a :: b :: rest => a :: updLast f (b :: rest)

/-- Append flushed text to a field, joining with a newline when the field
already holds text (the `+=` branch of `flush_buffer`). -/
def appendText (old t : List Char) : List Char :=
  if old.isEmpty then t else old ++ '\n' :: t

def updDistField (fld : AField) (t : List Char) (d : District A G) : District A G :=
  match fld with
  | .general => { d with text_general := appendText d.text_general t }
  | .detail => { d with text_detail := appendText d.text_detail t }

def updCityField (fld : AField) (t : List Char) (c : City A G) : City A G :=
  match fld with
  | .general => { c with text_general := appendText c.text_general t }
  | .detail => { c with text_detail := appendText c.text_detail t }

def updProvField (fld : AField) (t : List Char) (p : Prov A G) : Prov A G :=
  match fld with
  | .general => { p with text_general := appendText p.text_general t }
  | .detail => { p with text_detail := appendText p.text_detail t }

/-- Write flushed text into the active entity. -/
def writeField (st : PState A G) (lv : ALevel) (t : List Char) : PState A G :=
  match lv with
  | .prov => { st with provs := updLast (updProvField st.activeField t) st.provs }
  | .city =>
    { st with provs := updLast (fun p =>
        { p with children := updLast (updCityField st.activeField t) p.children }) st.provs }
  | .dist =>
    { st with provs := updLast (fun p =>
        { p with children := updLast (fun c =>
            { c with children := updLast (updDistField st.activeField t) c.children }) p.children }) st.provs }

/-- `flush_buffer` of `parse_markdown`: a no-op unless an entity is active
and the buffer is non-empty; then join the buffer with newlines, strip it,
append it to the active field when non-empty, and clear the buffer. -/
def flushState (st : PState A G) : PState A G :=
  match st.active with
  | none => st
  | some lv =>
    if st.buffer.isEmpty then st
    else
      let t := pyStrip (joinNl st.buffer)
      let st' := if t.isEmpty then st else writeField st lv t
      { st' with buffer := [] }

def freshProv (nm : List Char) : Prov A G :=
  { name := nm, level := 1, adcode := none, text_general := [], text_detail := [],
    geometry := none, children := [] }

def freshCity (nm pn : List Char) (pad : Option A) : City A G :=
  { name := nm, level := 2, parent_name := pn, parent_adcode := pad, adcode := none,
    text_general := [], text_detail := [], geometry := none, children := [] }

def freshDist (nm pn : List Char) (pad : Option A) : District A G :=
  { name := nm, level := 3, parent_name := pn, parent_adcode := pad, adcode := none,
    text_general := [], text_detail := [], geometry := none }

/-- The top-tier heading branch of `parse_markdown`. -/
def h1Step (st : PState A G) (t : List Char) : PState A G :=
  let st1 := flushState st
  { st1 with
    provs := st1.provs ++ [freshProv (pyStrip t)],
    hasCity := false, hasDist := false,
    active := some ALevel.prov, activeField := AField.detail }

/-- The top-tier general-description-marker branch. -/
def h2ZeroStep (st : PState A G) : PState A G :=
  { flushState st with active := some ALevel.prov, activeField := AField.general }

/-- The mid-tier heading branch: append a fresh level-2 node to the
current (last) province, copying `parent_name`/`parent_adcode` from it. -/
def h2Step (st : PState A G) (t : List Char) : PState A G :=
  let st1 := flushState st
  { st1 with
    provs := updLast (fun p =>
      { p with children := p.children ++ [freshCity (pyStrip t) p.name p.adcode] }) st1.provs,
    hasCity := true, hasDist := false,
    active := some ALevel.city, activeField := AField.detail }

/-- The mid-tier general-description-marker branch. -/
def h3ZeroStep (st : PState A G) : PState A G :=
  { flushState st with active := some ALevel.city, activeField := AField.general }

/-- The bottom-tier heading branch: append a fresh level-3 node to the
current (last) city of the current province. -/
def h3Step (st : PState A G) (t : List Char) : PState A G :=
  let st1 := flushState st
  { st1 with
    provs := updLast (fun p =>
      { p with children := updLast (fun c =>
          { c with children := c.children ++ [freshDist (pyStrip t) c.name c.adcode] }) p.children }) st1.provs,
    hasDist := true,
    active := some ALevel.dist, activeField := AField.detail }

/-- Processing of one input line by `parse_markdown`, in the source's
branch order: strip; skip blank lines; top-tier heading; top-tier zero
marker (needs `current_province`); mid-tier heading (needs
`current_province`); mid-tier zero marker (needs `current_city`);
bottom-tier heading (needs `current_city`); otherwise buffer the raw line
with newlines stripped from its ends. -/
def processLineAux (st : PState A G) (line raw : List Char) : PState A G :=
  if line.isEmpty then st
  else if (matchH1 line).isSome then h1Step st ((matchH1 line).getD [])
  else if !st.provs.isEmpty && isH2Zero line then h2ZeroStep st
  else if !st.provs.isEmpty && (matchH2 line).isSome then h2Step st ((matchH2 line).getD [])
  else if st.hasCity && isH3Zero line then h3ZeroStep st
  else if st.hasCity && (matchH3 line).isSome then h3Step st ((matchH3 line).getD [])
  else { st with buffer := st.buffer ++ [stripNl raw] }

def processLine (st : PState A G) (raw : List Char) : PState A G :=
  processLineAux st (pyStrip raw) raw

/-- Initial parser state. -/
def initPState (A G : Type) : PState A G :=
  { provs := [], hasCity := false, hasDist := false, active := none,
    activeField := AField.detail, buffer := [] }

/-- `parse_markdown` on a list of newline-free lines: fold `processLine`,
then perform the final flush and return the accumulated forest. -/
def parse_markdown (A G : Type) (lines : List (List Char)) : List (Prov A G) :=
  (flushState (lines.foldl processLine (initPState A G))).provs

/-!  Reference tables and the linker.

`link_data` consumes a dict of GeoDataFrames keyed `"province"`,
`"city"`, `"district"` (the `"country"` table is not used by linking).
Each table is a list of typed rows; the booleans model the
column-presence tests the code performs (`'pr_name' in
gdf_provinces.columns` etc.).  A missing dict key and a `None` value are
both modelled by `none`; `gdf.empty` is modelled by an empty row list.
-/

structure ProvRow (A G : Type) where
  pr_name : List Char
  pr_adcode : A
  geometry : G
deriving DecidableEq, Repr

structure CityRow (A G : Type) where
  ct_name : List Char
  ct_adcode : A
  pr_adcode : A
  geometry : G
deriving DecidableEq, Repr

structure DistRow (A G : Type) where
  dt_name : List Char
  dt_adcode : A
  ct_adcode : A
  geometry : G
deriving DecidableEq, Repr

structure ProvTable (A G : Type) where
  rows : List (ProvRow A G)
  hasNameCol : Bool
deriving DecidableEq, Repr

structure CityTable (A G : Type) where
  rows : List (CityRow A G)
  hasNameCol : Bool
  hasParentCol : Bool
deriving DecidableEq, Repr

structure DistTable (A G : Type) where
  rows : List (DistRow A G)
  hasNameCol : Bool
  hasParentCol : Bool
deriving DecidableEq, Repr

/-- The `shp_data` dictionary as far as `link_data` reads it. -/
structure ShpData (A G : Type) where
  province : Option (ProvTable A G)
  city : Option (CityTable A G)
  district : Option (DistTable A G)
deriving DecidableEq, Repr

/-- District linking (V10.PY lines 226-238): skip when the `dt_name` or
`ct_adcode` column is missing; filter rows scoped by the city's
just-assigned adcode, then match by normalized name; on a match take the
first row and assign its adcode and geometry. -/
def linkDist [DecidableEq A] (dt : DistTable A G) (cityAd : A) (d : District A G) :
    District A G :=
  if dt.hasNameCol && dt.hasParentCol then
    let potential := dt.rows.filter fun r => decide (r.ct_adcode = cityAd)
    let matched := potential.filter fun r =>
      decide (normalize_name r.dt_name = normalize_name d.name)
    match matched with
    | [] => d
    | row :: _ => { d with adcode := some row.dt_adcode, geometry := some row.geometry }
  else d

/-- City linking (V10.PY lines 212-238): scope by the province's
just-assigned adcode, match by normalized name, assign the first row's
adcode and geometry, and only then link the city's districts. -/
def linkCity [DecidableEq A] (ct : CityTable A G) (dt : DistTable A G) (provAd : A)
    (c : City A G) : City A G :=
  if ct.hasNameCol && ct.hasParentCol then
    let potential := ct.rows.filter fun r => decide (r.pr_adcode = provAd)
    let matched := potential.filter fun r =>
      decide (normalize_name r.ct_name = normalize_name c.name)
    match matched with
    | [] => c
    | row :: _ =>
      { c with
        adcode := some row.ct_adcode, geometry := some row.geometry,
        children := c.children.map (linkDist dt row.ct_adcode) }
  else c

/-- Province linking (V10.PY lines 199-238): skip when `pr_name` is
missing; match by normalized name over the whole province table, assign
the first row's adcode and geometry, and only then link the children. -/
def linkProv [DecidableEq A] (pt : ProvTable A G) (ct : CityTable A G)
    (dt : DistTable A G) (p : Prov A G) : Prov A G :=
  if pt.hasNameCol then
    let matched := pt.rows.filter fun r =>
      decide (normalize_name r.pr_name = normalize_name p.name)
    match matched with
    | [] => p
    | row :: _ =>
      { p with
        adcode := some row.pr_adcode, geometry := some row.geometry,
        children := p.children.map (linkCity ct dt row.pr_adcode) }
  else p

/-- `link_data` of `V10.PY`: if the forest is empty or any of the three
required tables is missing, `None` or empty, return the forest
unmodified; otherwise link every province. -/
def link_data [DecidableEq A] (md : List (Prov A G)) (shp : ShpData A G) :
    List (Prov A G) :=
  match shp.province, shp.city, shp.district with
  | some pt, some ct, some dt =>
    if md.isEmpty || pt.rows.isEmpty || ct.rows.isEmpty || dt.rows.isEmpty then md
    else md.map (linkProv pt ct dt)
  | _, _, _ => md

/-- Concrete city table for the C1 witness: two rows with the same
normalized name (广州) under two different parent adcodes. -/
def wCityTable : CityTable Nat Nat :=
  { rows := [{ ct_name := "广州市".data, ct_adcode := 20, pr_adcode := 1, geometry := 7 },
             { ct_name := "广州".data, ct_adcode := 30, pr_adcode := 2, geometry := 8 }],
    hasNameCol := true, hasParentCol := true }

def wDistTable : DistTable Nat Nat :=
  { rows := [], hasNameCol := true, hasParentCol := true }

def wCity : City Nat Nat := freshCity "广州".data "广东".data (some 1)

def wProvTable : ProvTable Nat Nat :=
  { rows := [{ pr_name := "广东省".data, pr_adcode := 1, geometry := 3 }],
    hasNameCol := true }

def wMissProv : Prov Nat Nat :=
  { name := "云南省".data, level := 1, adcode := none, text_general := [],
    text_detail := [], geometry := none,
    children := [freshCity "昆明市".data "云南省".data none] }

/-!  Frame relations and set/unset predicates, for C9 and C10. -/

/-- All fields other than `adcode` and `geometry` preserved, and neither
`adcode` nor `geometry` ever reset from set to unset. -/
def distFrame (d d' : District A G) : Prop :=
  d'.name = d.name ∧ d'.level = d.level ∧ d'.parent_name = d.parent_name ∧
  d'.parent_adcode = d.parent_adcode ∧ d'.text_general = d.text_general ∧
  d'.text_detail = d.text_detail ∧
  (d.adcode.isSome = true → d'.adcode.isSome = true) ∧
  (d.geometry.isSome = true → d'.geometry.isSome = true)

def cityFrame (c c' : City A G) : Prop :=
  c'.name = c.name ∧ c'.level = c.level ∧ c'.parent_name = c.parent_name ∧
  c'.parent_adcode = c.parent_adcode ∧ c'.text_general = c.text_general ∧
  c'.text_detail = c.text_detail ∧
  (c.adcode.isSome = true → c'.adcode.isSome = true) ∧
  (c.geometry.isSome = true → c'.geometry.isSome = true) ∧
  List.Forall₂ distFrame c.children c'.children

def provFrame (p p' : Prov A G) : Prop :=
  p'.name = p.name ∧ p'.level = p.level ∧ p'.text_general = p.text_general ∧
  p'.text_detail = p.text_detail ∧
  (p.adcode.isSome = true → p'.adcode.isSome = true) ∧
  (p.geometry.isSome = true → p'.geometry.isSome = true) ∧
  List.Forall₂ cityFrame p.children p'.children

def wShpFull : ShpData Nat Nat :=
  { province := some wProvTable,
    city := some wCityTable,
    district := some { rows := [{ dt_name := "越秀区".data, dt_adcode := 200,
                                  ct_adcode := 20, geometry := 9 }],
                       hasNameCol := true, hasParentCol := true } }

def wSetProv : Prov Nat Nat :=
  { name := "广东省".data, level := 1, adcode := some 99, text_general := [],
    text_detail := [], geometry := some 99, children := [] }

/-!  Set/unset predicates for C10. -/

def distUnset (d : District A G) : Bool := d.adcode.isNone && d.geometry.isNone

def cityUnset (c : City A G) : Bool :=
  c.adcode.isNone && c.geometry.isNone && c.children.all distUnset

def provUnset (p : Prov A G) : Bool :=
  p.adcode.isNone && p.geometry.isNone && p.children.all cityUnset

def forestUnset (md : List (Prov A G)) : Bool := md.all provUnset

/-- The C10 invariant at one node: adcode is set iff geometry is set. -/
def distInv (d : District A G) : Bool := d.adcode.isSome == d.geometry.isSome

def cityInv (c : City A G) : Bool :=
  (c.adcode.isSome == c.geometry.isSome) && c.children.all distInv

def provInv (p : Prov A G) : Bool :=
  (p.adcode.isSome == p.geometry.isSome) && p.children.all cityInv

def forestInv (md : List (Prov A G)) : Bool := md.all provInv

/-- The parser-state invariant for C10. -/
def stUnset (st : PState A G) : Bool := st.provs.all provUnset

/-!  Lemmas about one-sided whitespace stripping. -/

def rdropW {α : Type} (q : α → Bool) (x : List α) : List α :=
  (x.reverse.dropWhile q).reverse

/-!  Infrastructure for C8: behaviour of `matchH2` on a composed heading
line with an arbitrary title. -/

/-- `clash pat conc = true` when comparing `pat` against `conc`
position-by-position hits a mismatch before either list is exhausted, so
`pat` is not a prefix of `conc ++ t` for any `t`. -/
def clash : List Char → List Char → Bool
  | [], _ => false
  | _ :: _, [] => false
  | a :: as, b :: bs => if a == b then clash as bs else true

def wC8State : PState Nat Nat :=
  { provs := [freshProv "广东省".data], hasCity := false, hasDist := false,
    active := some ALevel.prov, activeField := AField.detail, buffer := [] }

def wC7State : PState Nat Nat :=
  { provs := [{ name := "广东省".data, level := 1, adcode := none, text_general := [],
                text_detail := [], geometry := none,
                children := [freshCity "广州市".data "广东省".data none] }],
    hasCity := true, hasDist := false, active := some ALevel.city,
    activeField := AField.detail, buffer := ["pending".data] }

/-!  Theorems. -/

/-!  Helper lemmas. -/

theorem filter_filter_head {α : Type} (p q : α → Bool) (l : List α) :
    (l.filter p).filter q = l.filter (fun a => p a && q a) := by
  induction l with
  | nil => rfl
  | cons a t ih =>
    by_cases hp : p a <;> by_cases hq : q a <;>
      simp [List.filter_cons, hp, hq, ih]

theorem head_filter_of_split {α : Type} (p : α → Bool) (l₁ l₂ : List α) (r : α)
    (h₁ : ∀ x ∈ l₁, p x = false) (h₂ : p r = true) :
    ((l₁ ++ r :: l₂).filter p).head? = some r := by
  induction l₁ with
  | nil => simp [List.filter_cons, h₂]
  | cons a t ih =>
    have ha : p a = false := h₁ a (by simp)
    simp only [List.cons_append, List.filter_cons, ha]
    exact ih fun x hx => h₁ x (by simp [hx])

theorem filter_eq_nil_of_none {α : Type} (p : α → Bool) (l : List α)
    (h : ∀ x ∈ l, p x = false) : l.filter p = [] := by
  induction l with
  | nil => rfl
  | cons a t ih =>
    have := h a (by simp)
    simp only [List.filter_cons, this, Bool.false_eq_true, if_false]
    exact ih fun x hx => h x (by simp [hx])

/-- C6: parsing the five-line document `# 第1章 Guangdong`, `## 一、Guangzhou`,
`overview line`, `### 1. Yuexiu`, `detail line` yields one level-1 node
"Guangdong" whose single child is the level-2 node "Guangzhou" with
`text_detail = "overview line"`, whose single child is the level-3 node
"Yuexiu" with `text_detail = "detail line"`. -/
theorem C6_end_to_end :
    parse_markdown Nat Nat
      ["# 第1章 Guangdong".data, "## 一、Guangzhou".data, "overview line".data,
       "### 1. Yuexiu".data, "detail line".data]
      = [{ name := "Guangdong".data, level := 1, adcode := none, text_general := [],
           text_detail := [], geometry := none,
           children := [{ name := "Guangzhou".data, level := 2,
                          parent_name := "Guangdong".data, parent_adcode := none,
                          adcode := none, text_general := [],
                          text_detail := "overview line".data, geometry := none,
                          children := [{ name := "Yuexiu".data, level := 3,
                                         parent_name := "Guangzhou".data,
                                         parent_adcode := none, adcode := none,
                                         text_general := [],
                                         text_detail := "detail line".data,
                                         geometry := none }] }] }] := by
  decide

/-- C2: if any of the three reference tables required for linking
(province, city, district) is absent, `None` or empty, `link_data`
returns the input forest unchanged (Lean equality is value equality, so
every field of every node is identical). -/
theorem C2_missing_tables_identity {A G : Type} [DecidableEq A]
    (md : List (Prov A G)) (shp : ShpData A G)
    (h : shp.province = none ∨ shp.city = none ∨ shp.district = none ∨
         (∃ pt, shp.province = some pt ∧ pt.rows = []) ∨
         (∃ ct, shp.city = some ct ∧ ct.rows = []) ∨
         (∃ dt, shp.district = some dt ∧ dt.rows = [])) :
    link_data md shp = md := by
  obtain ⟨op, oc, od⟩ := shp
  match op, oc, od with
  | none, _, _ => simp [link_data]
  | some pt, none, _ => simp [link_data]
  | some pt, some ct, none => simp [link_data]
  | some pt, some ct, some dt =>
    rcases h with h | h | h | ⟨pt', hp, hr⟩ | ⟨ct', hp, hr⟩ | ⟨dt', hp, hr⟩
    · exact absurd h (by simp)
    · exact absurd h (by simp)
    · exact absurd h (by simp)
    all_goals
      simp only [Option.some.injEq] at hp
      subst hp
      simp [link_data, hr]

/-- Witness for C2 at a concrete forest and a table collection whose city
table is present but empty. -/
theorem C2_missing_tables_identity_witness :
    link_data [freshProv (A := Nat) (G := Nat) "G".data]
      { province := some { rows := [{ pr_name := "G".data, pr_adcode := 1, geometry := 5 }],
                           hasNameCol := true },
        city := some { rows := [], hasNameCol := true, hasParentCol := true },
        district := none }
      = [freshProv "G".data] :=
  C2_missing_tables_identity _ _ (Or.inr (Or.inr (Or.inl rfl)))

/-- C1: for a level-2 node under a level-1 node whose linking assigned
`provAd`, linking selects only among city rows whose `pr_adcode` equals
`provAd`; the first row (in table order) of that scoped subset whose
normalized name equals the node's normalized name supplies the assigned
adcode and geometry, and when no scoped row's normalized name matches the
node is unchanged even if rows under other parents carry an equal
normalized name.  The same holds one level down for level-3 nodes scoped
by the level-2 node's assigned adcode. -/
theorem C1_scoped_first_match {A G : Type} [DecidableEq A] :
    (∀ (ct : CityTable A G) (dt : DistTable A G) (provAd : A) (c : City A G),
      ct.hasNameCol = true → ct.hasParentCol = true →
      ((∀ l₁ r l₂, ct.rows = l₁ ++ r :: l₂ →
          (∀ r' ∈ l₁, ¬(r'.pr_adcode = provAd ∧
              normalize_name r'.ct_name = normalize_name c.name)) →
          r.pr_adcode = provAd → normalize_name r.ct_name = normalize_name c.name →
          (linkCity ct dt provAd c).adcode = some r.ct_adcode ∧
          (linkCity ct dt provAd c).geometry = some r.geometry) ∧
       ((∀ r ∈ ct.rows, r.pr_adcode = provAd →
            normalize_name r.ct_name ≠ normalize_name c.name) →
          linkCity ct dt provAd c = c)))
    ∧ (∀ (dt : DistTable A G) (cityAd : A) (d : District A G),
      dt.hasNameCol = true → dt.hasParentCol = true →
      ((∀ l₁ r l₂, dt.rows = l₁ ++ r :: l₂ →
          (∀ r' ∈ l₁, ¬(r'.ct_adcode = cityAd ∧
              normalize_name r'.dt_name = normalize_name d.name)) →
          r.ct_adcode = cityAd → normalize_name r.dt_name = normalize_name d.name →
          (linkDist dt cityAd d).adcode = some r.dt_adcode ∧
          (linkDist dt cityAd d).geometry = some r.geometry) ∧
       ((∀ r ∈ dt.rows, r.ct_adcode = cityAd →
            normalize_name r.dt_name ≠ normalize_name d.name) →
          linkDist dt cityAd d = d))) := by
  constructor
  · intro ct dt provAd c hn hp
    constructor
    · intro l₁ r l₂ hrows hfirst hpa hname
      have hh : ((ct.rows.filter fun r => decide (r.pr_adcode = provAd)).filter
          (fun r => decide (normalize_name r.ct_name = normalize_name c.name))).head?
          = some r := by
        rw [filter_filter_head, hrows]
        apply head_filter_of_split
        · intro x hx
          have := hfirst x hx
          simp only [Bool.and_eq_false_iff, decide_eq_false_iff_not]
          by_cases h1 : x.pr_adcode = provAd
          · exact Or.inr fun h2 => this ⟨h1, h2⟩
          · exact Or.inl h1
        · simp [hpa, hname]
      rcases hm : (ct.rows.filter fun r => decide (r.pr_adcode = provAd)).filter
          (fun r => decide (normalize_name r.ct_name = normalize_name c.name)) with
        _ | ⟨row, rest⟩
      · rw [hm] at hh; simp at hh
      · rw [hm] at hh
        simp only [List.head?_cons, Option.some.injEq] at hh
        subst hh
        constructor <;> simp [linkCity, hn, hp, hm]
    · intro hnone
      have hm : (ct.rows.filter fun r => decide (r.pr_adcode = provAd)).filter
          (fun r => decide (normalize_name r.ct_name = normalize_name c.name)) = [] := by
        rw [filter_filter_head]
        apply filter_eq_nil_of_none
        intro x hx
        simp only [Bool.and_eq_false_iff, decide_eq_false_iff_not]
        by_cases h1 : x.pr_adcode = provAd
        · exact Or.inr (hnone x hx h1)
        · exact Or.inl h1
      simp [linkCity, hn, hp, hm]
  · intro dt cityAd d hn hp
    constructor
    · intro l₁ r l₂ hrows hfirst hpa hname
      have hh : ((dt.rows.filter fun r => decide (r.ct_adcode = cityAd)).filter
          (fun r => decide (normalize_name r.dt_name = normalize_name d.name))).head?
          = some r := by
        rw [filter_filter_head, hrows]
        apply head_filter_of_split
        · intro x hx
          have := hfirst x hx
          simp only [Bool.and_eq_false_iff, decide_eq_false_iff_not]
          by_cases h1 : x.ct_adcode = cityAd
          · exact Or.inr fun h2 => this ⟨h1, h2⟩
          · exact Or.inl h1
        · simp [hpa, hname]
      rcases hm : (dt.rows.filter fun r => decide (r.ct_adcode = cityAd)).filter
          (fun r => decide (normalize_name r.dt_name = normalize_name d.name)) with
        _ | ⟨row, rest⟩
      · rw [hm] at hh; simp at hh
      · rw [hm] at hh
        simp only [List.head?_cons, Option.some.injEq] at hh
        subst hh
        constructor <;> simp [linkDist, hn, hp, hm]
    · intro hnone
      have hm : (dt.rows.filter fun r => decide (r.ct_adcode = cityAd)).filter
          (fun r => decide (normalize_name r.dt_name = normalize_name d.name)) = [] := by
        rw [filter_filter_head]
        apply filter_eq_nil_of_none
        intro x hx
        simp only [Bool.and_eq_false_iff, decide_eq_false_iff_not]
        by_cases h1 : x.ct_adcode = cityAd
        · exact Or.inr (hnone x hx h1)
        · exact Or.inl h1
      simp [linkDist, hn, hp, hm]

/-- Witness for C1: under parent adcode 1 only the first row (parent 1) is
selected, although the second row has an equal normalized name. -/
theorem C1_scoped_first_match_witness :
    (linkCity wCityTable wDistTable 1 wCity).adcode = some 20 ∧
      (linkCity wCityTable wDistTable 1 wCity).geometry = some 7 :=
  (C1_scoped_first_match.1 wCityTable wDistTable 1 wCity rfl rfl).1
    [] { ct_name := "广州市".data, ct_adcode := 20, pr_adcode := 1, geometry := 7 }
    [{ ct_name := "广州".data, ct_adcode := 30, pr_adcode := 2, geometry := 8 }]
    rfl (by simp) rfl (by decide)

/-- C3: a name-match miss leaves the node — and with it its whole subtree,
which the source never visits in that case — unchanged, so identifier and
geometry stay unset on the node and all of its descendants; the final
conjunct places this inside `link_data`: a missed province is returned
(unchanged) as a member of the output forest.  All linking functions are
total, so no error is raised on a miss. -/
theorem C3_miss_leaves_subtree_unlinked {A G : Type} [DecidableEq A] :
    (∀ (pt : ProvTable A G) (ct : CityTable A G) (dt : DistTable A G) (p : Prov A G),
      (pt.hasNameCol = false ∨
        pt.rows.filter (fun r => decide (normalize_name r.pr_name = normalize_name p.name)) = []) →
      linkProv pt ct dt p = p)
    ∧ (∀ (ct : CityTable A G) (dt : DistTable A G) (provAd : A) (c : City A G),
      ((ct.hasNameCol && ct.hasParentCol) = false ∨
        (ct.rows.filter fun r => decide (r.pr_adcode = provAd)).filter
          (fun r => decide (normalize_name r.ct_name = normalize_name c.name)) = []) →
      linkCity ct dt provAd c = c)
    ∧ (∀ (dt : DistTable A G) (cityAd : A) (d : District A G),
      ((dt.hasNameCol && dt.hasParentCol) = false ∨
        (dt.rows.filter fun r => decide (r.ct_adcode = cityAd)).filter
          (fun r => decide (normalize_name r.dt_name = normalize_name d.name)) = []) →
      linkDist dt cityAd d = d)
    ∧ (∀ (md : List (Prov A G)) (pt : ProvTable A G) (ct : CityTable A G)
        (dt : DistTable A G) (p : Prov A G), p ∈ md →
      (pt.hasNameCol = false ∨
        pt.rows.filter (fun r => decide (normalize_name r.pr_name = normalize_name p.name)) = []) →
      p ∈ link_data md { province := some pt, city := some ct, district := some dt }) := by
  have hprov : ∀ (pt : ProvTable A G) (ct : CityTable A G) (dt : DistTable A G) (p : Prov A G),
      (pt.hasNameCol = false ∨
        pt.rows.filter (fun r => decide (normalize_name r.pr_name = normalize_name p.name)) = []) →
      linkProv pt ct dt p = p := by
    intro pt ct dt p h
    rcases h with h | h
    · simp [linkProv, h]
    · by_cases hn : pt.hasNameCol = true
      · simp [linkProv, hn, h]
      · simp [linkProv, Bool.eq_false_iff.mpr hn]
  refine ⟨hprov, ?_, ?_, ?_⟩
  · intro ct dt provAd c h
    rcases h with h | h
    · simp [linkCity, h]
    · by_cases hn : (ct.hasNameCol && ct.hasParentCol) = true
      · simp [linkCity, hn, h]
      · simp [linkCity, Bool.eq_false_iff.mpr hn]
  · intro dt cityAd d h
    rcases h with h | h
    · simp [linkDist, h]
    · by_cases hn : (dt.hasNameCol && dt.hasParentCol) = true
      · simp [linkDist, hn, h]
      · simp [linkDist, Bool.eq_false_iff.mpr hn]
  · intro md pt ct dt p hmem h
    have hlp := hprov pt ct dt p h
    show p ∈ (if md.isEmpty || pt.rows.isEmpty || ct.rows.isEmpty || dt.rows.isEmpty then md
      else md.map (linkProv pt ct dt))
    by_cases hcond : (md.isEmpty || pt.rows.isEmpty || ct.rows.isEmpty || dt.rows.isEmpty) = true
    · rw [if_pos hcond]; exact hmem
    · rw [if_neg hcond]
      have hmm := List.mem_map_of_mem (linkProv pt ct dt) hmem
      rwa [hlp] at hmm

/-- Witness for C3: a province whose name matches no reference row is
returned unchanged (subtree included) by `link_data` with all three
tables present and non-empty. -/
theorem C3_miss_leaves_subtree_unlinked_witness :
    wMissProv ∈ link_data [wMissProv]
      { province := some wProvTable, city := some wCityTable,
        district := some { rows := [{ dt_name := "越秀区".data, dt_adcode := 200,
                                      ct_adcode := 20, geometry := 9 }],
                           hasNameCol := true, hasParentCol := true } } :=
  C3_miss_leaves_subtree_unlinked.2.2.2 _ _ _ _ wMissProv (by simp) (Or.inr (by decide))

/-!  Facts about the suffix loop, used for C4 and C5. -/

theorem foldl_fix {α β : Type} (f : α → β → α) (l : List β) (x : α)
    (h : ∀ b ∈ l, f x b = x) : l.foldl f x = x := by
  induction l with
  | nil => rfl
  | cons a t ih =>
    have ha : f x a = x := h a (by simp)
    simp only [List.foldl_cons, ha]
    exact ih fun b hb => h b (by simp [hb])

theorem foldl_preserve {α β : Type} (P : α → Prop) (f : α → β → α) (l : List β) (x : α)
    (hstep : ∀ y b, P y → P (f y b)) (hx : P x) : P (l.foldl f x) := by
  induction l generalizing x with
  | nil => exact hx
  | cons a t ih => exact ih (f x a) (hstep x a hx)

theorem stripOneSuffix_ne_nil (y suf : List Char) (hy : y ≠ []) :
    stripOneSuffix y suf ≠ [] := by
  unfold stripOneSuffix
  by_cases hc : (endsWith y suf && decide (suf.length < y.length)) = true
  · rw [if_pos hc]
    simp only [Bool.and_eq_true, decide_eq_true_eq] at hc
    apply List.ne_nil_of_length_pos
    rw [List.length_take]
    omega
  · rw [if_neg hc]; exact hy

theorem stripOneSuffix_isPre (y suf : List Char) : stripOneSuffix y suf <+: y := by
  unfold stripOneSuffix
  by_cases hc : (endsWith y suf && decide (suf.length < y.length)) = true
  · rw [if_pos hc]; exact List.take_prefix _ _
  · rw [if_neg hc]

theorem hasPre_decomp : ∀ (pre l : List Char), hasPre pre l = true → ∃ r, l = pre ++ r := by
  intro pre
  induction pre with
  | nil => intro l _; exact ⟨l, rfl⟩
  | cons a as ih =>
    intro l h
    cases l with
    | nil => simp [hasPre] at h
    | cons b bs =>
      simp only [hasPre, Bool.and_eq_true, beq_iff_eq] at h
      obtain ⟨rfl, h2⟩ := h
      obtain ⟨r, hr⟩ := ih bs h2
      exact ⟨r, by rw [hr]; rfl⟩

theorem endsWith_decomp (x s : List Char) (h : endsWith x s = true) :
    ∃ r, x = r ++ s ∧ x.take (x.length - s.length) = r := by
  obtain ⟨q, hq⟩ := hasPre_decomp s.reverse x.reverse h
  have hx : x = q.reverse ++ s := by
    have h2 := congrArg List.reverse hq
    simpa using h2
  refine ⟨q.reverse, hx, ?_⟩
  rw [hx, show (q.reverse ++ s).length - s.length = q.reverse.length by simp]
  exact List.take_left _ _

/-- One loop iteration either leaves the name alone or removes exactly
its suffix from the end. -/
theorem stripOneSuffix_cases (x s : List Char) :
    stripOneSuffix x s = x ∨ x = stripOneSuffix x s ++ s := by
  unfold stripOneSuffix
  by_cases hc : (endsWith x s && decide (s.length < x.length)) = true
  · right
    rw [if_pos hc]
    simp only [Bool.and_eq_true, decide_eq_true_eq] at hc
    obtain ⟨r, hr, htake⟩ := endsWith_decomp x s hc.1
    rw [htake]
    exact hr
  · left; rw [if_neg hc]

/-- The whole suffix loop removes, in list order, at most one copy of
each list entry: the removed suffixes form an in-order sublist of
`sufs`, and concatenating them (innermost last) back onto the result
restores the input. -/
theorem foldl_strip_decomp : ∀ (sufs : List (List Char)) (x : List Char),
    ∃ removed : List (List Char), removed.Sublist sufs ∧
      x = sufs.foldl stripOneSuffix x ++ removed.reverse.flatten := by
  intro sufs
  induction sufs with
  | nil => intro x; exact ⟨[], List.Sublist.refl _, by simp⟩
  | cons s rest ih =>
    intro x
    obtain ⟨p, hp, hx⟩ := ih (stripOneSuffix x s)
    rcases stripOneSuffix_cases x s with h | h
    · refine ⟨p, List.Sublist.cons s hp, ?_⟩
      rw [List.foldl_cons]
      exact h.symm.trans hx
    · refine ⟨s :: p, List.Sublist.cons₂ s hp, ?_⟩
      rw [List.foldl_cons]
      calc x = stripOneSuffix x s ++ s := h
        _ = (rest.foldl stripOneSuffix (stripOneSuffix x s) ++ p.reverse.flatten) ++ s := by
            rw [← hx]
        _ = rest.foldl stripOneSuffix (stripOneSuffix x s) ++ (s :: p).reverse.flatten := by
            simp [List.append_assoc]

/-- C4 counterexample: `normalize_name` changes the name 地区 although it
is itself a listed suffix (the earlier-listed suffix 区 strips first),
and on a盟市 — which ends in the listed suffix 市 with the non-empty
remainder a盟 — it removes a second suffix from the remainder, returning
a rather than a盟. -/
theorem C4_counterexample :
    "地区".data ∈ suffixes_to_remove ∧
      normalize_name "地区".data = "地".data ∧
      endsWith "a盟市".data "市".data = true ∧
      pyStrip "a盟市".data = "a盟市".data ∧
      normalize_name "a盟市".data = "a".data := by
  decide

/-- C4 (amended): `normalize_name` trims surrounding whitespace and then
makes one pass over the fixed suffix list in order, removing each listed
suffix the current remainder ends with whenever the remainder stays
non-empty.  Hence the output is non-empty whenever the trimmed input is,
it is always a prefix of the trimmed input, the removed suffixes are an
in-order sublist of the fixed list (at most one removal per list entry)
whose concatenation restores the trimmed input, and a trimmed name
ending in no removable listed suffix is returned unchanged. -/
theorem C4_amended (name : List Char) :
    (pyStrip name ≠ [] → normalize_name name ≠ []) ∧
      normalize_name name <+: pyStrip name ∧
      (∃ removed : List (List Char), removed.Sublist suffixes_to_remove ∧
        pyStrip name = normalize_name name ++ removed.reverse.flatten) ∧
      ((∀ suf ∈ suffixes_to_remove,
          ¬(endsWith (pyStrip name) suf = true ∧ suf.length < (pyStrip name).length)) →
        normalize_name name = pyStrip name) := by
  refine ⟨?_, ?_, ?_, ?_⟩
  · intro h
    exact foldl_preserve (· ≠ []) stripOneSuffix suffixes_to_remove (pyStrip name)
      (fun y b hy => stripOneSuffix_ne_nil y b hy) h
  · exact foldl_preserve (· <+: pyStrip name) stripOneSuffix suffixes_to_remove
      (pyStrip name) (fun y b hy => (stripOneSuffix_isPre y b).trans hy)
      (List.prefix_refl _)
  · exact foldl_strip_decomp suffixes_to_remove (pyStrip name)
  · intro h
    apply foldl_fix
    intro suf hsuf
    unfold stripOneSuffix
    rw [if_neg]
    intro hc
    simp only [Bool.and_eq_true, decide_eq_true_eq] at hc
    exact h suf hsuf hc

/-- Witness for C4 (amended) at the concrete names " 广东省 " and "abc". -/
theorem C4_amended_witness :
    (normalize_name " 广东省 ".data ≠ [] ∧
      normalize_name " 广东省 ".data <+: pyStrip " 广东省 ".data ∧
      (∃ removed : List (List Char), removed.Sublist suffixes_to_remove ∧
        pyStrip " 广东省 ".data = normalize_name " 广东省 ".data ++ removed.reverse.flatten)) ∧
      normalize_name "abc".data = pyStrip "abc".data :=
  ⟨⟨(C4_amended _).1 (by decide), (C4_amended _).2.1, (C4_amended _).2.2.1⟩,
    (C4_amended _).2.2.2 (by decide)⟩

/-- C5 counterexample: `normalize_name` is not idempotent — on a市市 one
application strips one 市 (the loop's 市 entry fires once), and a second
application strips the second 市. -/
theorem C5_counterexample :
    normalize_name "a市市".data = "a市".data ∧
      normalize_name (normalize_name "a市市".data) = "a".data ∧
      normalize_name (normalize_name "a市市".data) ≠ normalize_name "a市市".data := by
  decide

/-- C5 (amended): `normalize_name` is idempotent on every input whose
output is already fully trimmed and ends in no removable listed suffix;
in general re-application can strip further suffixes (or newly exposed
surrounding whitespace). -/
theorem C5_amended (name : List Char)
    (h1 : pyStrip (normalize_name name) = normalize_name name)
    (h2 : ∀ suf ∈ suffixes_to_remove,
      ¬(endsWith (normalize_name name) suf = true ∧
        suf.length < (normalize_name name).length)) :
    normalize_name (normalize_name name) = normalize_name name := by
  conv_lhs => rw [normalize_name]
  rw [h1]
  apply foldl_fix
  intro suf hsuf
  unfold stripOneSuffix
  rw [if_neg]
  intro hc
  simp only [Bool.and_eq_true, decide_eq_true_eq] at hc
  exact h2 suf hsuf hc

/-- Witness for C5 (amended) at the concrete name 广东省. -/
theorem C5_amended_witness :
    normalize_name (normalize_name "广东省".data) = normalize_name "广东省".data :=
  C5_amended "广东省".data (by decide) (by decide)

theorem distFrame_refl (d : District A G) : distFrame d d :=
  ⟨rfl, rfl, rfl, rfl, rfl, rfl, id, id⟩

theorem cityFrame_refl (c : City A G) : cityFrame c c :=
  ⟨rfl, rfl, rfl, rfl, rfl, rfl, id, id,
    (List.forall₂_same).2 fun x _ => distFrame_refl x⟩

theorem provFrame_refl (p : Prov A G) : provFrame p p :=
  ⟨rfl, rfl, rfl, rfl, id, id, (List.forall₂_same).2 fun x _ => cityFrame_refl x⟩

theorem forall₂_map_self {α : Type} (R : α → α → Prop) (f : α → α) (l : List α)
    (h : ∀ x ∈ l, R x (f x)) : List.Forall₂ R l (l.map f) := by
  induction l with
  | nil => exact List.Forall₂.nil
  | cons a t ih =>
    exact List.Forall₂.cons (h a (by simp)) (ih fun x hx => h x (by simp [hx]))

theorem linkDist_frame [DecidableEq A] (dt : DistTable A G) (ad : A) (d : District A G) :
    distFrame d (linkDist dt ad d) := by
  by_cases hg : (dt.hasNameCol && dt.hasParentCol) = true
  · cases hm : (dt.rows.filter fun r => decide (r.ct_adcode = ad)).filter
        (fun r => decide (normalize_name r.dt_name = normalize_name d.name)) with
    | nil =>
      have h : linkDist dt ad d = d := by simp [linkDist, hg, hm]
      rw [h]; exact distFrame_refl d
    | cons row rest =>
      have h : linkDist dt ad d =
          { d with adcode := some row.dt_adcode, geometry := some row.geometry } := by
        simp [linkDist, hg, hm]
      rw [h]
      exact ⟨rfl, rfl, rfl, rfl, rfl, rfl, fun _ => rfl, fun _ => rfl⟩
  · have h : linkDist dt ad d = d := by simp [linkDist, hg]
    rw [h]; exact distFrame_refl d

theorem linkCity_frame [DecidableEq A] (ct : CityTable A G) (dt : DistTable A G)
    (ad : A) (c : City A G) : cityFrame c (linkCity ct dt ad c) := by
  by_cases hg : (ct.hasNameCol && ct.hasParentCol) = true
  · cases hm : (ct.rows.filter fun r => decide (r.pr_adcode = ad)).filter
        (fun r => decide (normalize_name r.ct_name = normalize_name c.name)) with
    | nil =>
      have h : linkCity ct dt ad c = c := by simp [linkCity, hg, hm]
      rw [h]; exact cityFrame_refl c
    | cons row rest =>
      have h : linkCity ct dt ad c =
          { c with
            adcode := some row.ct_adcode, geometry := some row.geometry,
            children := c.children.map (linkDist dt row.ct_adcode) } := by
        simp [linkCity, hg, hm]
      rw [h]
      exact ⟨rfl, rfl, rfl, rfl, rfl, rfl, fun _ => rfl, fun _ => rfl,
        forall₂_map_self _ _ _ fun d _ => linkDist_frame dt _ d⟩
  · have h : linkCity ct dt ad c = c := by simp [linkCity, hg]
    rw [h]; exact cityFrame_refl c

theorem linkProv_frame [DecidableEq A] (pt : ProvTable A G) (ct : CityTable A G)
    (dt : DistTable A G) (p : Prov A G) : provFrame p (linkProv pt ct dt p) := by
  by_cases hg : pt.hasNameCol = true
  · cases hm : pt.rows.filter
        (fun r => decide (normalize_name r.pr_name = normalize_name p.name)) with
    | nil =>
      have h : linkProv pt ct dt p = p := by simp [linkProv, hg, hm]
      rw [h]; exact provFrame_refl p
    | cons row rest =>
      have h : linkProv pt ct dt p =
          { p with
            adcode := some row.pr_adcode, geometry := some row.geometry,
            children := p.children.map (linkCity ct dt row.pr_adcode) } := by
        simp [linkProv, hg, hm]
      rw [h]
      exact ⟨rfl, rfl, rfl, rfl, fun _ => rfl, fun _ => rfl,
        forall₂_map_self _ _ _ fun c _ => linkCity_frame ct dt _ c⟩
  · have h : linkProv pt ct dt p = p := by simp [linkProv, hg]
    rw [h]; exact provFrame_refl p

/-- C9 counterexample: on a forest whose province already carries the
identifier `some 99`, `link_data` overwrites it with the matched row's
identifier `some 1` — a modification that is not "from unset to set". -/
theorem C9_counterexample :
    (link_data [wSetProv] wShpFull).map (fun p => p.adcode) = [some 1] ∧
      wSetProv.adcode = some 99 := by
  decide

/-- C9 (amended): `link_data` modifies at most `adcode` and `geometry` of
each node — every other field and the children sequence (membership,
order and count) are preserved — and never resets a set `adcode` or
`geometry` to unset; on forests with all identifiers and geometry unset,
as produced by parsing, every modification is therefore from unset to
set. -/
theorem C9_amended {A G : Type} [DecidableEq A]
    (md : List (Prov A G)) (shp : ShpData A G) :
    List.Forall₂ provFrame md (link_data md shp) := by
  have hrefl : List.Forall₂ provFrame md md :=
    (List.forall₂_same).2 fun x _ => provFrame_refl x
  obtain ⟨op, oc, od⟩ := shp
  match op, oc, od with
  | none, _, _ => exact hrefl
  | some pt, none, _ => exact hrefl
  | some pt, some ct, none => exact hrefl
  | some pt, some ct, some dt =>
    show List.Forall₂ provFrame md
      (if md.isEmpty || pt.rows.isEmpty || ct.rows.isEmpty || dt.rows.isEmpty then md
        else md.map (linkProv pt ct dt))
    by_cases hc : (md.isEmpty || pt.rows.isEmpty || ct.rows.isEmpty || dt.rows.isEmpty) = true
    · rw [if_pos hc]; exact hrefl
    · rw [if_neg hc]
      exact forall₂_map_self _ _ _ fun p _ => linkProv_frame pt ct dt p

/-- Witness for C9 (amended) at a concrete forest and tables. -/
theorem C9_amended_witness :
    List.Forall₂ provFrame [wSetProv] (link_data [wSetProv] wShpFull) :=
  C9_amended [wSetProv] wShpFull

theorem distUnset_inv (d : District A G) (h : distUnset d = true) : distInv d = true := by
  simp only [distUnset, Bool.and_eq_true, Option.isNone_iff_eq_none] at h
  simp [distInv, h.1, h.2]

theorem cityUnset_inv (c : City A G) (h : cityUnset c = true) : cityInv c = true := by
  simp only [cityUnset, Bool.and_eq_true, Option.isNone_iff_eq_none,
    List.all_eq_true] at h
  simp only [cityInv, Bool.and_eq_true, List.all_eq_true, h.1.1, h.1.2]
  exact ⟨rfl, fun d hd => distUnset_inv d (h.2 d hd)⟩

theorem provUnset_inv (p : Prov A G) (h : provUnset p = true) : provInv p = true := by
  simp only [provUnset, Bool.and_eq_true, Option.isNone_iff_eq_none,
    List.all_eq_true] at h
  simp only [provInv, Bool.and_eq_true, List.all_eq_true, h.1.1, h.1.2]
  exact ⟨rfl, fun c hc => cityUnset_inv c (h.2 c hc)⟩

/-!  The parser creates every node with adcode and geometry unset. -/

theorem updLast_all {α : Type} (q : α → Bool) (f : α → α)
    (hf : ∀ a, q a = true → q (f a) = true) :
    ∀ l : List α, l.all q = true → (updLast f l).all q = true := by
  intro l
  induction l with
  | nil => intro h; exact h
  | cons a t ih =>
    intro h
    simp only [List.all_cons, Bool.and_eq_true] at h
    cases t with
    | nil => simp [updLast, hf a h.1]
    | cons b r =>
      simp only [updLast, List.all_cons, Bool.and_eq_true]
      exact ⟨h.1, by
        have := ih h.2
        simpa [updLast] using this⟩

theorem updDistField_unset (fld : AField) (t : List Char) (d : District A G)
    (h : distUnset d = true) : distUnset (updDistField fld t d) = true := by
  cases fld <;> exact h

theorem updCityField_unset (fld : AField) (t : List Char) (c : City A G)
    (h : cityUnset c = true) : cityUnset (updCityField fld t c) = true := by
  cases fld <;> exact h

theorem updProvField_unset (fld : AField) (t : List Char) (p : Prov A G)
    (h : provUnset p = true) : provUnset (updProvField fld t p) = true := by
  cases fld <;> exact h

theorem writeField_unset (st : PState A G) (lv : ALevel) (t : List Char)
    (h : stUnset st = true) : stUnset (writeField st lv t) = true := by
  cases lv with
  | prov =>
    exact updLast_all provUnset _ (fun p hp => updProvField_unset _ t p hp) _ h
  | city =>
    refine updLast_all provUnset _ (fun p hp => ?_) _ h
    simp only [provUnset, Bool.and_eq_true] at hp ⊢
    exact ⟨hp.1, updLast_all cityUnset _ (fun c hc => updCityField_unset _ t c hc) _ hp.2⟩
  | dist =>
    refine updLast_all provUnset _ (fun p hp => ?_) _ h
    simp only [provUnset, Bool.and_eq_true] at hp ⊢
    refine ⟨hp.1, updLast_all cityUnset _ (fun c hc => ?_) _ hp.2⟩
    simp only [cityUnset, Bool.and_eq_true] at hc ⊢
    exact ⟨hc.1, updLast_all distUnset _ (fun d hd => updDistField_unset _ t d hd) _ hc.2⟩

theorem flushState_unset (st : PState A G) (h : stUnset st = true) :
    stUnset (flushState st) = true := by
  unfold flushState
  cases st.active with
  | none => exact h
  | some lv =>
    by_cases hb : st.buffer.isEmpty
    · simp only [hb, if_true]; exact h
    · simp only [hb, Bool.false_eq_true, if_false]
      by_cases ht : (pyStrip (joinNl st.buffer)).isEmpty
      · simp only [ht, if_true]; exact h
      · simp only [ht, Bool.false_eq_true, if_false]
        exact writeField_unset st lv _ h

theorem processLine_unset (st : PState A G) (raw : List Char)
    (h : stUnset st = true) : stUnset (processLine st raw) = true := by
  have hflush := flushState_unset st h
  unfold processLine processLineAux
  split_ifs with h1 h2 h3 h4 h5 h6
  · exact h
  · unfold h1Step stUnset
    simp only [List.all_append, Bool.and_eq_true]
    exact ⟨hflush, by simp [freshProv, provUnset]⟩
  · exact hflush
  · unfold h2Step stUnset
    refine updLast_all provUnset _ (fun p hp => ?_) _ hflush
    simp only [provUnset, Bool.and_eq_true, List.all_append] at hp ⊢
    exact ⟨hp.1, hp.2, by simp [freshCity, cityUnset]⟩
  · exact hflush
  · unfold h3Step stUnset
    refine updLast_all provUnset _ (fun p hp => ?_) _ hflush
    simp only [provUnset, Bool.and_eq_true] at hp ⊢
    refine ⟨hp.1, updLast_all cityUnset _ (fun c hc => ?_) _ hp.2⟩
    simp only [cityUnset, Bool.and_eq_true, List.all_append] at hc ⊢
    exact ⟨hc.1, hc.2, by simp [freshDist, distUnset]⟩
  · exact h

/-!  The linker assigns adcode and geometry together. -/

theorem linkDist_inv [DecidableEq A] (dt : DistTable A G) (ad : A) (d : District A G)
    (h : distInv d = true) : distInv (linkDist dt ad d) = true := by
  by_cases hg : (dt.hasNameCol && dt.hasParentCol) = true
  · cases hm : (dt.rows.filter fun r => decide (r.ct_adcode = ad)).filter
        (fun r => decide (normalize_name r.dt_name = normalize_name d.name)) with
    | nil => simpa [linkDist, hg, hm] using h
    | cons row rest => simp [linkDist, hg, hm, distInv]
  · simpa [linkDist, hg] using h

theorem linkCity_inv [DecidableEq A] (ct : CityTable A G) (dt : DistTable A G)
    (ad : A) (c : City A G) (h : cityInv c = true) :
    cityInv (linkCity ct dt ad c) = true := by
  by_cases hg : (ct.hasNameCol && ct.hasParentCol) = true
  · cases hm : (ct.rows.filter fun r => decide (r.pr_adcode = ad)).filter
        (fun r => decide (normalize_name r.ct_name = normalize_name c.name)) with
    | nil => simpa [linkCity, hg, hm] using h
    | cons row rest =>
      simp only [cityInv, Bool.and_eq_true, List.all_eq_true] at h
      simp only [linkCity, hg, hm, if_true, cityInv, Bool.and_eq_true, List.all_eq_true]
      refine ⟨by simp, fun d hd => ?_⟩
      simp only [List.mem_map] at hd
      obtain ⟨d0, hd0, rfl⟩ := hd
      exact linkDist_inv dt _ d0 (h.2 d0 hd0)
  · simpa [linkCity, hg] using h

theorem linkProv_inv [DecidableEq A] (pt : ProvTable A G) (ct : CityTable A G)
    (dt : DistTable A G) (p : Prov A G) (h : provInv p = true) :
    provInv (linkProv pt ct dt p) = true := by
  by_cases hg : pt.hasNameCol = true
  · cases hm : pt.rows.filter
        (fun r => decide (normalize_name r.pr_name = normalize_name p.name)) with
    | nil => simpa [linkProv, hg, hm] using h
    | cons row rest =>
      simp only [provInv, Bool.and_eq_true, List.all_eq_true] at h
      simp only [linkProv, hg, hm, if_true, provInv, Bool.and_eq_true, List.all_eq_true]
      refine ⟨by simp, fun c hc => ?_⟩
      simp only [List.mem_map] at hc
      obtain ⟨c0, hc0, rfl⟩ := hc
      exact linkCity_inv ct dt _ c0 (h.2 c0 hc0)
  · simpa [linkProv, hg] using h

/-- C10: parsing creates every node with adcode and geometry unset (so in
particular the set-iff-set invariant holds after parsing), and linking
preserves the invariant because it always assigns adcode and geometry
together from the matched row. -/
theorem C10_adcode_geometry_together {A G : Type} [DecidableEq A] :
    (∀ lines : List (List Char), forestUnset (parse_markdown A G lines) = true)
    ∧ (∀ lines : List (List Char), forestInv (parse_markdown A G lines) = true)
    ∧ (∀ (md : List (Prov A G)) (shp : ShpData A G),
        forestInv md = true → forestInv (link_data md shp) = true) := by
  have hunset : ∀ lines : List (List Char), forestUnset (parse_markdown A G lines) = true := by
    intro lines
    have hst : ∀ st : PState A G, stUnset st = true →
        stUnset (lines.foldl processLine st) = true := by
      induction lines with
      | nil => exact fun st h => h
      | cons l t ih => exact fun st h => ih _ (processLine_unset st l h)
    exact flushState_unset _ (hst (initPState A G) rfl)
  refine ⟨hunset, ?_, ?_⟩
  · intro lines
    have h := hunset lines
    simp only [forestUnset, List.all_eq_true] at h
    simp only [forestInv, List.all_eq_true]
    exact fun p hp => provUnset_inv p (h p hp)
  · intro md shp h
    obtain ⟨op, oc, od⟩ := shp
    match op, oc, od with
    | none, _, _ => exact h
    | some pt, none, _ => exact h
    | some pt, some ct, none => exact h
    | some pt, some ct, some dt =>
      show forestInv
        (if md.isEmpty || pt.rows.isEmpty || ct.rows.isEmpty || dt.rows.isEmpty then md
          else md.map (linkProv pt ct dt)) = true
      by_cases hc : (md.isEmpty || pt.rows.isEmpty || ct.rows.isEmpty || dt.rows.isEmpty) = true
      · rw [if_pos hc]; exact h
      · rw [if_neg hc]
        simp only [forestInv, List.all_eq_true] at h ⊢
        intro p hp
        simp only [List.mem_map] at hp
        obtain ⟨p0, hp0, rfl⟩ := hp
        exact linkProv_inv pt ct dt p0 (h p0 hp0)

/-- Witness for C10: the invariant concretely after parsing the five-line
document and after linking a concrete unset forest with full tables. -/
theorem C10_adcode_geometry_together_witness :
    forestUnset (parse_markdown Nat Nat
      ["# 第1章 Guangdong".data, "## 一、Guangzhou".data, "overview line".data]) = true
    ∧ forestInv (link_data [wMissProv] wShpFull) = true :=
  ⟨C10_adcode_geometry_together.1 _,
    C10_adcode_geometry_together.2.2 [wMissProv] wShpFull (by decide)⟩

theorem rdropW_cons {α : Type} (q : α → Bool) (a : α) (t : List α) :
    rdropW q (a :: t) =
      if (rdropW q t).isEmpty then (if q a then [] else [a])
      else a :: rdropW q t := by
  have hrev : (rdropW q t).isEmpty = (t.reverse.dropWhile q).isEmpty := by
    unfold rdropW
    cases hx : t.reverse.dropWhile q <;> simp [hx]
  rw [rdropW, List.reverse_cons, List.dropWhile_append, hrev]
  by_cases h : (t.reverse.dropWhile q).isEmpty = true
  · rw [if_pos h, if_pos h]
    by_cases hq : q a <;> simp [List.dropWhile, hq]
  · rw [if_neg h, if_neg h, List.reverse_append]
    rfl

theorem dropWhile_sub {α : Type} (p q : α → Bool) (h : ∀ c, q c = true → p c = true)
    (l : List α) : (l.dropWhile q).dropWhile p = l.dropWhile p := by
  induction l with
  | nil => rfl
  | cons a t ih =>
    by_cases hq : q a = true
    · simp [List.dropWhile_cons, hq, h a hq, ih]
    · simp [List.dropWhile_cons, hq]

theorem dropWhile_rdropW_comm {α : Type} (p q : α → Bool) (x : List α) :
    (rdropW q x).dropWhile p = rdropW q (x.dropWhile p) := by
  induction x with
  | nil => rfl
  | cons a t ih =>
    rw [rdropW_cons]
    by_cases hp : p a = true
    · have hdw : (a :: t).dropWhile p = t.dropWhile p := by simp [List.dropWhile_cons, hp]
      rw [hdw, ← ih]
      by_cases h : (rdropW q t).isEmpty
      · simp only [h, if_true]
        have ht : rdropW q t = [] := by simpa [List.isEmpty_iff] using h
        rw [ht]
        by_cases hq : q a <;> simp [hq, List.dropWhile, hp]
      · simp only [h, Bool.false_eq_true, if_false]
        simp [List.dropWhile_cons, hp]
    · have hdw : (a :: t).dropWhile p = a :: t := by simp [List.dropWhile_cons, hp]
      rw [hdw, rdropW_cons]
      by_cases h : (rdropW q t).isEmpty
      · simp only [h, if_true]
        by_cases hq : q a <;> simp [hq, List.dropWhile, hp]
      · simp only [h, Bool.false_eq_true, if_false]
        simp [List.dropWhile_cons, hp]

theorem rdropW_rdropW_sub {α : Type} (p q : α → Bool) (h : ∀ c, q c = true → p c = true)
    (y : List α) : rdropW p (rdropW q y) = rdropW p y := by
  unfold rdropW
  rw [List.reverse_reverse, dropWhile_sub p q h]

theorem rdropW_append {α : Type} (q : α → Bool) (x y : List α) (h : rdropW q y ≠ []) :
    rdropW q (x ++ y) = x ++ rdropW q y := by
  unfold rdropW at *
  rw [List.reverse_append, List.dropWhile_append, if_neg, List.reverse_append,
    List.reverse_reverse]
  intro hc
  exact h (by simp_all [List.isEmpty_iff])

theorem isNl_isWS : ∀ c : Char, (c == '\n') = true → isWS c = true := by
  intro c hc
  have : c = '\n' := by simpa using hc
  subst this
  decide

theorem pyStrip_stripNl (l : List Char) : pyStrip (stripNl l) = pyStrip l := by
  show rdropW isWS ((rdropW (· == '\n') (l.dropWhile (· == '\n'))).dropWhile isWS)
    = rdropW isWS (l.dropWhile isWS)
  rw [dropWhile_rdropW_comm, dropWhile_sub isWS (· == '\n') isNl_isWS,
    rdropW_rdropW_sub isWS (· == '\n') isNl_isWS]

theorem dropWhile_rstripWS (t : List Char) :
    (rstripWS t).dropWhile isWS = pyStrip t :=
  dropWhile_rdropW_comm isWS isWS t

theorem rstripWS_ne_of_pyStrip_ne (t : List Char) (h : pyStrip t ≠ []) :
    rstripWS t ≠ [] := by
  intro hc
  apply h
  rw [← dropWhile_rstripWS, hc]
  rfl

theorem rstripWS_append (x y : List Char) (h : rstripWS y ≠ []) :
    rstripWS (x ++ y) = x ++ rstripWS y :=
  rdropW_append isWS x y h

theorem flushState_buffer_empty (st : PState A G) (h : st.active.isSome = true) :
    (flushState st).buffer = [] := by
  unfold flushState
  cases hact : st.active with
  | none => rw [hact] at h; simp at h
  | some lv =>
    by_cases hb : st.buffer.isEmpty
    · simp only [hb, if_true]
      simpa [List.isEmpty_iff] using hb
    · by_cases ht : (pyStrip (joinNl st.buffer)).isEmpty <;>
        simp [hb, ht]

/-- C7: in any parser state with a top-tier ancestor in scope (also from
an already-descended mid/bottom context: `hasCity`, `hasDist`, the active
entity and the active field are arbitrary), the top-tier general marker
line flushes the pending buffer into the previously active field and
re-targets the (last) top-tier node with field = general; a subsequent
plain non-blank line is then appended, at the next flush, to that
top-tier node's `text_general` — its mid/bottom descendants, living in
`children`, are untouched. -/
theorem C7_top_general_redirect {A G : Type} (st : PState A G) (l : List Char)
    (hprov : st.provs ≠ [])
    (hactive : st.active.isSome = true)
    (h1 : matchH1 (pyStrip l) = none)
    (h2 : isH2Zero (pyStrip l) = false)
    (h3 : matchH2 (pyStrip l) = none)
    (h4 : isH3Zero (pyStrip l) = false)
    (h5 : matchH3 (pyStrip l) = none)
    (hnb : pyStrip l ≠ []) :
    processLine st "## 零、上位类说明".data
      = { flushState st with active := some ALevel.prov, activeField := AField.general }
    ∧ (flushState (processLine
          (processLine st "## 零、上位类说明".data) l)).provs
      = updLast (fun p => { p with text_general := appendText p.text_general (pyStrip l) })
          (processLine st "## 零、上位类说明".data).provs := by
  have hpz : pyStrip "## 零、上位类说明".data = "## 零、上位类说明".data := by decide
  have hz1 : matchH1 "## 零、上位类说明".data = none := by decide
  have hz2 : isH2Zero "## 零、上位类说明".data = true := by decide
  have hze : ("## 零、上位类说明".data).isEmpty = false := by decide
  have hpe : st.provs.isEmpty = false := List.isEmpty_eq_false.mpr hprov
  have hstep1 : processLine st "## 零、上位类说明".data
      = { flushState st with active := some ALevel.prov, activeField := AField.general } := by
    unfold processLine
    rw [hpz]
    unfold processLineAux
    rw [hze, hz1, hz2, hpe]
    simp [h2ZeroStep]
  refine ⟨hstep1, ?_⟩
  have hle : (pyStrip l).isEmpty = false := List.isEmpty_eq_false.mpr hnb
  have hbuf : (flushState st).buffer = [] := flushState_buffer_empty st hactive
  have hstep2 : processLine (processLine st "## 零、上位类说明".data) l
      = { flushState st with
          active := some ALevel.prov, activeField := AField.general,
          buffer := [stripNl l] } := by
    rw [hstep1]
    unfold processLine processLineAux
    rw [hle, h1, h2, h3, h4, h5]
    simp [hbuf]
  rw [hstep2, hstep1]
  show (flushState _).provs = _
  unfold flushState
  simp only
  rw [if_neg (by simp)]
  have hjoin : joinNl [stripNl l] = stripNl l := rfl
  rw [hjoin, pyStrip_stripNl l, if_neg (by simp [hle])]
  rfl

theorem clash_hasPre : ∀ (pat conc : List Char), clash pat conc = true →
    ∀ t : List Char, hasPre pat (conc ++ t) = false := by
  intro pat
  induction pat with
  | nil => intro conc h; simp [clash] at h
  | cons a as ih =>
    intro conc h t
    cases conc with
    | nil => simp [clash] at h
    | cons b bs =>
      by_cases hab : (a == b) = true
      · simp only [clash, hab, if_true] at h
        simp only [List.cons_append, hasPre, hab, Bool.true_and]
        exact ih bs h t
      · simp only [List.cons_append, hasPre, hab, Bool.false_and]

theorem hasPre_self_append : ∀ (x t : List Char), hasPre x (x ++ t) = true := by
  intro x
  induction x with
  | nil => intro t; rfl
  | cons a as ih =>
    intro t
    simp only [List.cons_append, hasPre, beq_self_eq_true, Bool.true_and]
    exact ih t

theorem pyStrip_dropWhile (t : List Char) : (pyStrip t).dropWhile isWS = pyStrip t := by
  show (rdropW isWS (t.dropWhile isWS)).dropWhile isWS = _
  rw [dropWhile_rdropW_comm, dropWhile_sub isWS isWS (fun _ h => h)]
  rfl

theorem pyStrip_idem (t : List Char) : pyStrip (pyStrip t) = pyStrip t := by
  show rdropW isWS ((pyStrip t).dropWhile isWS) = pyStrip t
  rw [pyStrip_dropWhile]
  exact rdropW_rdropW_sub isWS isWS (fun _ h => h) _

theorem matchH1_double_hash (z : List Char) : matchH1 ('#' :: '#' :: z) = none := by
  have h : (List.takeWhile isWS ('#' :: z)).isEmpty = true := by
    rw [List.takeWhile_cons]
    simp [isWS]
  simp [matchH1, h]

/-- Earlier ordinal alternatives always clash (mismatch inside the
concrete region) with a later alternative followed by the separator. -/
theorem H2_ordinal_clash : ∀ i, i < H2_ORDINALS_CN.length →
    ∀ hi : i < H2_ORDINALS_CN.length, ∀ o ∈ H2_ORDINALS_CN.take i,
      clash (o ++ ['、']) (H2_ORDINALS_CN.get ⟨i, hi⟩ ++ ['、']) = true := by
  decide

/-- `findOrd` on an ordinal of the alternative list, followed by the
separator and an arbitrary tail, returns exactly that tail, provided all
earlier alternatives clash with it. -/
theorem findOrd_split (pre post : List (List Char)) (ord t : List Char)
    (hsplit : H2_ORDINALS_CN = pre ++ ord :: post)
    (hclash : ∀ o ∈ pre, clash (o ++ ['、']) (ord ++ ['、']) = true) :
    findOrd (ord ++ '、' :: t) = some t := by
  have hassoc : ord ++ '、' :: t = (ord ++ ['、']) ++ t := by simp
  unfold findOrd
  rw [hsplit, List.findSome?_append]
  have hnone : pre.findSome? (fun o =>
      if hasPre (o ++ ['、']) (ord ++ '、' :: t) then
        some ((ord ++ '、' :: t).drop (o.length + 1))
      else none) = none := by
    rw [List.findSome?_eq_none_iff]
    intro o ho
    rw [if_neg]
    rw [hassoc, clash_hasPre _ _ (hclash o ho) t]
    simp
  rw [hnone, Option.none_or, List.findSome?_cons]
  have htrue : hasPre (ord ++ ['、']) (ord ++ '、' :: t) = true := by
    rw [hassoc]; exact hasPre_self_append _ t
  rw [htrue]
  simp only
  rw [hassoc, show ord.length + 1 = (ord ++ ['、']).length by simp, List.drop_left]
  simp

/-- `findOrd` on the `i`-th ordinal followed by the separator and an
arbitrary tail returns exactly that tail. -/
theorem findOrd_at (i : Nat) (hi : i < H2_ORDINALS_CN.length) (t : List Char) :
    findOrd (H2_ORDINALS_CN.get ⟨i, hi⟩ ++ '、' :: t) = some t := by
  have hsplit : H2_ORDINALS_CN
      = H2_ORDINALS_CN.take i ++ H2_ORDINALS_CN.get ⟨i, hi⟩ :: H2_ORDINALS_CN.drop (i + 1) := by
    conv_lhs => rw [← List.take_append_drop i H2_ORDINALS_CN]
    rw [List.drop_eq_getElem_cons hi]
    rfl
  exact findOrd_split _ _ _ t hsplit (H2_ordinal_clash i hi hi)

/-- C8 counterexample: with a top-tier ancestor in scope, the line built
from the level-2 marker, the ordinal word 一, the separator and the
non-empty (but all-whitespace) title `" "` is NOT recognized as a
mid-tier heading — after stripping it ends in the bare separator, the
`(.+)` group cannot match, and the line is buffered as plain text. -/
theorem C8_counterexample :
    "一".data ∈ H2_ORDINALS ∧ (" ".data : List Char) ≠ [] ∧
      processLine wC8State ("## ".data ++ "一".data ++ "、".data ++ " ".data)
        = { wC8State with buffer := ["## 一、 ".data] } := by
  decide

theorem cons_beq_cons (a b : Char) (x y : List Char) :
    ((a :: x : List Char) == b :: y) = (a == b && x == y) := rfl

/-- Head facts about the Chinese ordinal alternatives. -/
theorem H2_ordinal_heads : ∀ o ∈ H2_ORDINALS_CN,
    o ≠ [] ∧ isWS (o.headD 'A') = false ∧ (o.headD 'A' == '零') = false := by
  decide

/-- Every Chinese ordinal alternative clashes with the Bengali tail. -/
theorem H2_ordinal_clash_bengali : ∀ o ∈ H2_ORDINALS_CN,
    clash (o ++ ['、']) ['৩', '৮', '、'] = true := by
  decide

/-- C8 (amended): for every ordinal word in the source's closed
38-element alternative list (一 … 三十七 and the garbled `" ৩৮"`), the
line built from the level-2 marker `"## "`, that ordinal word, the
separator `、` and a non-blank title is recognized as a mid-tier heading
whenever a top-tier ancestor is in scope: the pending buffer is flushed
and a fresh level-2 node named by the trimmed title is appended to the
current top-tier node's children.  (The title must contain a
non-whitespace character — an all-whitespace title is stripped away with
the line end and refutes the claim's bare "non-empty" — and, being part
of a line, contains no newline.) -/
theorem C8_ordinal_heading_recognized {A G : Type} (st : PState A G)
    (ord title : List Char)
    (hord : ord ∈ H2_ORDINALS)
    (hprov : st.provs ≠ [])
    (htitle : pyStrip title ≠ [])
    (hnl : '\n' ∉ title) :
    processLine st ("## ".data ++ ord ++ "、".data ++ title)
      = { flushState st with
          provs := updLast (fun p =>
            { p with children := p.children ++ [freshCity (pyStrip title) p.name p.adcode] })
            (flushState st).provs,
          hasCity := true, hasDist := false,
          active := some ALevel.city, activeField := AField.detail } := by
  have hrs : rstripWS title ≠ [] := rstripWS_ne_of_pyStrip_ne title htitle
  have hpe : st.provs.isEmpty = false := List.isEmpty_eq_false.mpr hprov
  have htt : titleTail (rstripWS title) = some (pyStrip title) := by
    unfold titleTail
    rw [dropWhile_rstripWS, if_neg (by simp [List.isEmpty_eq_false.mpr htitle])]
  have hmk : ("## ".data : List Char) = ['#', '#', ' '] := by decide
  have hsep : ("、".data : List Char) = ['、'] := by decide
  have hord2 : ord ∈ H2_ORDINALS_CN ++ [" ৩৮".data] := hord
  rcases List.mem_append.mp hord2 with hcn | hben
  · -- one of the 37 Chinese ordinals
    obtain ⟨⟨i, hil⟩, heq⟩ := List.mem_iff_get.mp hcn
    obtain ⟨hne, hws0, hzero0⟩ := H2_ordinal_heads ord hcn
    obtain ⟨c, ord', rfl⟩ : ∃ c ord', ord = c :: ord' := by
      cases ord with
      | nil => exact absurd rfl hne
      | cons c o => exact ⟨c, o, rfl⟩
    replace hws0 : isWS c = false := hws0
    replace hzero0 : (c == '零') = false := hzero0
    have hfo : findOrd ((c :: ord') ++ '、' :: rstripWS title) = some (rstripWS title) := by
      have h0 := findOrd_at i hil (rstripWS title)
      rw [heq] at h0
      exact h0
    have hfo' : findOrd (c :: (ord' ++ '、' :: rstripWS title)) = some (rstripWS title) := hfo
    have hline : pyStrip ('#' :: '#' :: ' ' :: c :: (ord' ++ '、' :: title))
        = '#' :: '#' :: ' ' :: c :: (ord' ++ '、' :: rstripWS title) := by
      show rdropW isWS (List.dropWhile isWS
        ('#' :: '#' :: ' ' :: c :: (ord' ++ '、' :: title))) = _
      rw [List.dropWhile_cons, if_neg (by decide)]
      rw [show ('#' :: '#' :: ' ' :: c :: (ord' ++ '、' :: title))
          = ('#' :: '#' :: ' ' :: c :: (ord' ++ ['、'])) ++ title by simp]
      rw [rdropW_append _ _ _ hrs]
      simp [rdropW, rstripWS]
    have hw : List.takeWhile isWS (' ' :: c :: (ord' ++ '、' :: rstripWS title)) = [' '] := by
      rw [List.takeWhile_cons, if_pos (by decide), List.takeWhile_cons, if_neg (by simp [hws0])]
    have hr : List.dropWhile isWS (' ' :: c :: (ord' ++ '、' :: rstripWS title))
        = c :: (ord' ++ '、' :: rstripWS title) := by
      rw [List.dropWhile_cons, if_pos (by decide), List.dropWhile_cons, if_neg (by simp [hws0])]
    have hm2 : matchH2 ('#' :: '#' :: ' ' :: c :: (ord' ++ '、' :: rstripWS title))
        = some (pyStrip title) := by
      simp only [matchH2, hw, hr, hfo', List.isEmpty_cons, Bool.false_eq_true, if_false]
      exact htt
    have hm1 : matchH1 ('#' :: '#' :: ' ' :: c :: (ord' ++ '、' :: rstripWS title)) = none :=
      matchH1_double_hash _
    have hz : isH2Zero ('#' :: '#' :: ' ' :: c :: (ord' ++ '、' :: rstripWS title)) = false := by
      simp only [isH2Zero, hr]
      rw [cons_beq_cons, hzero0]
      simp
    unfold processLine
    rw [hmk, hsep, show (['#', '#', ' '] ++ c :: ord' ++ ['、'] ++ title : List Char)
      = '#' :: '#' :: ' ' :: c :: (ord' ++ '、' :: title) by simp]
    rw [hline]
    unfold processLineAux
    rw [hm1, hz, hm2]
    simp only [List.isEmpty_cons, Bool.false_eq_true, if_false, Option.isSome_none,
      Bool.and_false, Option.isSome_some, hpe, Bool.not_false, Bool.and_true, if_true]
    unfold h2Step
    rw [Option.getD_some, pyStrip_idem]
  · -- the garbled 38th alternative " ৩৮"
    have hbe : ord = ' ' :: '৩' :: '৮' :: [] := by simpa using hben
    subst hbe
    have hline : pyStrip ('#' :: '#' :: ' ' :: ' ' :: '৩' :: '৮' :: '、' :: title)
        = '#' :: '#' :: ' ' :: ' ' :: '৩' :: '৮' :: '、' :: rstripWS title := by
      show rdropW isWS (List.dropWhile isWS
        ('#' :: '#' :: ' ' :: ' ' :: '৩' :: '৮' :: '、' :: title)) = _
      rw [List.dropWhile_cons, if_neg (by decide)]
      rw [show ('#' :: '#' :: ' ' :: ' ' :: '৩' :: '৮' :: '、' :: title)
          = (['#', '#', ' ', ' ', '৩', '৮', '、'] ++ title) from rfl]
      rw [rdropW_append _ _ _ hrs]
      simp [rdropW, rstripWS]
    have hw : List.takeWhile isWS (' ' :: ' ' :: '৩' :: '৮' :: '、' :: rstripWS title)
        = [' ', ' '] := by
      rw [List.takeWhile_cons, if_pos (by decide), List.takeWhile_cons, if_pos (by decide),
        List.takeWhile_cons, if_neg (by decide)]
    have hr : List.dropWhile isWS (' ' :: ' ' :: '৩' :: '৮' :: '、' :: rstripWS title)
        = '৩' :: '৮' :: '、' :: rstripWS title := by
      rw [List.dropWhile_cons, if_pos (by decide), List.dropWhile_cons, if_pos (by decide),
        List.dropWhile_cons, if_neg (by decide)]
    have hfo : findOrd ('৩' :: '৮' :: '、' :: rstripWS title) = none := by
      unfold findOrd
      rw [List.findSome?_eq_none_iff]
      intro o ho
      rw [if_neg]
      rw [show ('৩' :: '৮' :: '、' :: rstripWS title)
          = ['৩', '৮', '、'] ++ rstripWS title from rfl,
        clash_hasPre _ _ (H2_ordinal_clash_bengali o ho) (rstripWS title)]
      simp
    have hpre : hasPre "৩৮、".data ('৩' :: '৮' :: '、' :: rstripWS title) = true := by
      rw [show ('৩' :: '৮' :: '、' :: rstripWS title)
          = ['৩', '৮', '、'] ++ rstripWS title from rfl]
      exact hasPre_self_append _ _
    have hm2 : matchH2 ('#' :: '#' :: ' ' :: ' ' :: '৩' :: '৮' :: '、' :: rstripWS title)
        = some (pyStrip title) := by
      simp only [matchH2, hw, hr, hfo, hpre, List.isEmpty_cons, Bool.false_eq_true, if_false]
      rw [if_pos (by decide)]
      exact htt
    have hm1 : matchH1 ('#' :: '#' :: ' ' :: ' ' :: '৩' :: '৮' :: '、' :: rstripWS title)
        = none := matchH1_double_hash _
    have hz : isH2Zero ('#' :: '#' :: ' ' :: ' ' :: '৩' :: '৮' :: '、' :: rstripWS title)
        = false := by
      simp only [isH2Zero, hr]
      rw [cons_beq_cons]
      simp [show ('৩' == '零') = false from by decide]
    unfold processLine
    rw [hmk, hsep, show (['#', '#', ' '] ++ (' ' :: '৩' :: '৮' :: []) ++ ['、'] ++ title : List Char)
      = '#' :: '#' :: ' ' :: ' ' :: '৩' :: '৮' :: '、' :: title by simp]
    rw [hline]
    unfold processLineAux
    rw [hm1, hz, hm2]
    simp only [List.isEmpty_cons, Bool.false_eq_true, if_false, Option.isSome_none,
      Bool.and_false, Option.isSome_some, hpe, Bool.not_false, Bool.and_true, if_true]
    unfold h2Step
    rw [Option.getD_some, pyStrip_idem]

/-- Witness for C7 at a concrete state that has already descended into a
mid-tier context, with a pending buffer and a concrete plain line. -/
theorem C7_top_general_redirect_witness :
    processLine wC7State "## 零、上位类说明".data
      = { flushState wC7State with active := some ALevel.prov, activeField := AField.general }
    ∧ (flushState (processLine
          (processLine wC7State "## 零、上位类说明".data) "some history".data)).provs
      = updLast (fun p =>
          { p with text_general := appendText p.text_general (pyStrip "some history".data) })
          (processLine wC7State "## 零、上位类说明".data).provs :=
  C7_top_general_redirect wC7State "some history".data (by decide) (by decide) (by decide)
    (by decide) (by decide) (by decide) (by decide) (by decide)

/-- Witness for C8 (amended) at the last Chinese ordinal and a title with
surrounding whitespace. -/
theorem C8_ordinal_heading_recognized_witness :
    processLine wC8State ("## ".data ++ "三十七".data ++ "、".data ++ " Foshan ".data)
      = { flushState wC8State with
          provs := updLast (fun p =>
            { p with children := p.children
                ++ [freshCity (pyStrip " Foshan ".data) p.name p.adcode] })
            (flushState wC8State).provs,
          hasCity := true, hasDist := false,
          active := some ALevel.city, activeField := AField.detail } :=
  C8_ordinal_heading_recognized wC8State "三十七".data " Foshan ".data (by decide)
    (by decide) (by decide) (by decide)
